import Mathlib

/-!
Verification development for the sprouts-regex-tool repository.

Each Python function that the claims depend on is shallowly embedded as an
executable Lean definition, translated from the source files:

* src/parser/data.py            (DataParser segmentation and padding helpers)
* src/sprouts_parser.py         (SproutsParser._segment and create_table fill)
* src/src/sprouts/parser/tables.py          (Table / SproutsTable analyzer)
* src/src/sprouts/parser/sprouts_parser.py  (older Table revision)
* src/src/sprouts/regex/regex_utils.py      (RegexSearch pattern synthesis)
* src/src/sprouts/utils/data_utils.py       (intify_list / stringify_list)

Machine integers are modelled as Int / Nat; Python exceptions are modelled
with Except / Option results; Python float NaN cells are modelled as none.
-/

namespace Py

/-- Model of Python str.isnumeric for the ASCII tokens this program handles:
a nonempty string of decimal digits. -/
def pyIsNumeric (s : String) : Bool :=
  !s.data.isEmpty && s.data.all Char.isDigit

/-- Numeric value of a list of decimal digit characters, most significant
first, as computed by positional accumulation. -/
def digitsToNat (cs : List Char) : Nat :=
  cs.foldl (fun a c => a * 10 + (c.toNat - 48)) 0

/-- Model of Python int() on the token strings this program handles:
an optional leading minus sign followed by one or more decimal digits.
Returns none where int() raises ValueError. -/
def pyIntOfStr (s : String) : Option Int :=
  match s.data with
  | [] => none
  | c :: rest =>
    if c = '-' then
      if !rest.isEmpty && rest.all Char.isDigit then
        some (-(digitsToNat rest : Int))
      else none
    else if (c :: rest).all Char.isDigit then
      some ((digitsToNat (c :: rest) : Int))
    else none

/-- Decimal digit characters of a natural number, most significant first.
The fuel argument bounds the recursion depth; fuel n+1 is always enough. -/
def natToDigits : Nat → Nat → List Char
  | 0, _ => []
  | f + 1, n =>
    if n < 10 then [Char.ofNat (48 + n)]
    else natToDigits f (n / 10) ++ [Char.ofNat (48 + n % 10)]

/-- Model of Python str() on a nonnegative integer. -/
def pyStrNat (n : Nat) : String :=
  String.mk (natToDigits (n + 1) n)

/-- Model of Python str() on an int. -/
def pyStrInt (i : Int) : String :=
  if i < 0 then String.mk ('-' :: natToDigits (i.natAbs + 1) i.natAbs)
  else pyStrNat i.toNat

/-- Model of Python str(x) for a table cell, where an absent cell is the
float NaN whose str form is the text nan. -/
def pyStrCell : Option String → String
  | some s => s
  | none => "nan"

/-- Model of int() applied to a table cell: int() on the NaN of an absent
cell raises ValueError, giving none. -/
def cellInt? : Option String → Option Int
  | some s => pyIntOfStr s
  | none => none

/-- Whether the first character list is a leading run of the second. -/
def chListPre : List Char → List Char → Bool
  | [], _ => true
  | _ :: _, [] => false
  | a :: as, b :: bs => a == b && chListPre as bs

/-- Whether the first list occurs contiguously inside the second. -/
def hasSubList (needle : List Char) : List Char → Bool
  | [] => needle.isEmpty
  | c :: cs => chListPre needle (c :: cs) || hasSubList needle cs

/-- Model of the Python expression item in sep for strings: substring
membership (the empty string is a substring of everything). -/
def pyInStr (item sep : String) : Bool :=
  hasSubList item.data sep.data

/-- Model of str.startswith for strings. -/
def strStarts (s p : String) : Bool :=
  chListPre p.data s.data

/-- Sorted duplicate-free list of the elements of a list, the model of the
Python idiom sorted(set(xs)). -/
def pySortedSet {α : Type} [LinearOrder α] [DecidableEq α] (l : List α) : List α :=
  List.insertionSort (· ≤ ·) l.dedup

/-- Model of python str() mapped over a list of ints (utils.stringify_list
and DataParser.stringify on int data). -/
def stringifyInts (l : List Int) : List String :=
  l.map pyStrInt

theorem pySortedSet_eq_sort {α : Type} [LinearOrder α] [DecidableEq α] (l : List α) :
    pySortedSet l = l.toFinset.sort (· ≤ ·) := by
  refine List.eq_of_perm_of_sorted ?_ (List.sorted_insertionSort _ _)
    (Finset.sort_sorted _ _)
  refine (List.perm_insertionSort _ _).trans ?_
  refine List.perm_of_nodup_nodup_toFinset_eq l.nodup_dedup (Finset.sort_nodup _ _) ?_
  rw [Finset.sort_toFinset]
  ext a
  simp [List.mem_toFinset, List.mem_dedup]

theorem mem_pySortedSet {α : Type} [LinearOrder α] [DecidableEq α] {l : List α} {a : α} :
    a ∈ pySortedSet l ↔ a ∈ l := by
  rw [pySortedSet_eq_sort, Finset.mem_sort, List.mem_toFinset]

theorem pySortedSet_sorted {α : Type} [LinearOrder α] [DecidableEq α] (l : List α) :
    List.Sorted (· ≤ ·) (pySortedSet l) :=
  List.sorted_insertionSort _ _

theorem pySortedSet_nodup {α : Type} [LinearOrder α] [DecidableEq α] (l : List α) :
    (pySortedSet l).Nodup := by
  rw [pySortedSet_eq_sort]
  exact Finset.sort_nodup _ _

theorem pySortedSet_congr {α : Type} [LinearOrder α] [DecidableEq α] {l₁ l₂ : List α}
    (h : l₁.toFinset = l₂.toFinset) : pySortedSet l₁ = pySortedSet l₂ := by
  rw [pySortedSet_eq_sort, pySortedSet_eq_sort, h]

theorem digitsToNat_append (ds : List Char) (c : Char) :
    digitsToNat (ds ++ [c]) = digitsToNat ds * 10 + (c.toNat - 48) := by
  simp [digitsToNat, List.foldl_append]

theorem char_ofNat_digit_toNat {n : Nat} (h : n < 10) :
    (Char.ofNat (48 + n)).toNat = 48 + n := by
  interval_cases n <;> decide

theorem char_ofNat_digit_isDigit {n : Nat} (h : n < 10) :
    (Char.ofNat (48 + n)).isDigit = true := by
  interval_cases n <;> decide

theorem natToDigits_spec : ∀ (f n : Nat), n < f →
    digitsToNat (natToDigits f n) = n ∧
    natToDigits f n ≠ [] ∧
    (natToDigits f n).all Char.isDigit = true := by
  intro f
  induction f with
  | zero => intro n hn; omega
  | succ f ih =>
    intro n hn
    by_cases h10 : n < 10
    · refine ⟨?_, by simp [natToDigits, h10], ?_⟩
      · simp [natToDigits, h10, digitsToNat, char_ofNat_digit_toNat h10]
      · simp [natToDigits, h10, char_ofNat_digit_isDigit h10]
    · have hdiv : n / 10 < f := by omega
      obtain ⟨h1, h2, h3⟩ := ih (n / 10) hdiv
      have hmod : n % 10 < 10 := Nat.mod_lt _ (by omega)
      refine ⟨?_, by simp [natToDigits, h10], ?_⟩
      · rw [natToDigits]
        simp only [h10, if_false]
        rw [digitsToNat_append, h1, char_ofNat_digit_toNat hmod]
        omega
      · rw [natToDigits]
        simp only [h10, if_false, List.all_append, h3]
        simp [char_ofNat_digit_isDigit hmod]

theorem pyStrNat_digits (n : Nat) :
    (pyStrNat n).data.all Char.isDigit = true ∧ (pyStrNat n).data ≠ [] := by
  obtain ⟨_, h2, h3⟩ := natToDigits_spec (n + 1) n (by omega)
  exact ⟨h3, h2⟩

theorem pyIsNumeric_pyStrNat (n : Nat) : pyIsNumeric (pyStrNat n) = true := by
  obtain ⟨h1, h2⟩ := pyStrNat_digits n
  simp [pyIsNumeric, h1, h2]

theorem pyIntOfStr_pyStrNat (n : Nat) : pyIntOfStr (pyStrNat n) = some (n : Int) := by
  obtain ⟨hval, hne, hdig⟩ := natToDigits_spec (n + 1) n (by omega)
  unfold pyIntOfStr pyStrNat
  cases h : natToDigits (n + 1) n with
  | nil => exact absurd h hne
  | cons c rest =>
    have hall : (c :: rest).all Char.isDigit = true := by rw [← h]; exact hdig
    have hcdig : c.isDigit = true := by
      have h5 := hall
      simp only [List.all_cons, Bool.and_eq_true] at h5
      exact h5.1
    have hcne : ¬ c = '-' := by
      intro hc; rw [hc] at hcdig; simp [Char.isDigit] at hcdig
    simp only [String.data]
    rw [h] at hval
    simp [hcne, hall, hval]

theorem pyStrNat_injective {m n : Nat} (h : pyStrNat m = pyStrNat n) : m = n := by
  have hm := pyIntOfStr_pyStrNat m
  rw [h, pyIntOfStr_pyStrNat n] at hm
  have h2 : (n : Int) = (m : Int) := Option.some.inj hm
  exact_mod_cast h2.symm

theorem pyStrInt_nonneg {n : Int} (h : 0 ≤ n) : pyStrInt n = pyStrNat n.toNat := by
  unfold pyStrInt
  rw [if_neg (by omega)]

theorem pyIntOfStr_pyStrInt {n : Int} (h : 0 ≤ n) : pyIntOfStr (pyStrInt n) = some n := by
  rw [pyStrInt_nonneg h, pyIntOfStr_pyStrNat]
  congr 1
  omega

theorem pyIsNumeric_pyStrInt {n : Int} (h : 0 ≤ n) : pyIsNumeric (pyStrInt n) = true := by
  rw [pyStrInt_nonneg h]
  exact pyIsNumeric_pyStrNat n.toNat

theorem pyStrInt_inj {m n : Int} (hm : 0 ≤ m) (hn : 0 ≤ n)
    (h : pyStrInt m = pyStrInt n) : m = n := by
  have h1 := pyIntOfStr_pyStrInt hm
  rw [h, pyIntOfStr_pyStrInt hn] at h1
  exact (Option.some.inj h1).symm

theorem numeric_nonneg_parse {s : String} (h : pyIsNumeric s = true) :
    ∃ n : Nat, pyIntOfStr s = some (n : Int) := by
  unfold pyIsNumeric at h
  simp only [Bool.and_eq_true] at h
  obtain ⟨hne, hdig⟩ := h
  unfold pyIntOfStr
  cases hd : s.data with
  | nil => rw [hd] at hne; simp at hne
  | cons c rest =>
    rw [hd] at hdig
    have hcdig : c.isDigit = true := by
      simp only [List.all_cons, Bool.and_eq_true] at hdig
      exact hdig.1
    have hcne : ¬ c = '-' := by
      intro hc; rw [hc] at hcdig; simp [Char.isDigit] at hcdig
    exact ⟨digitsToNat (c :: rest), by simp [hcne, hdig]⟩

end Py

namespace DataSeg

/-!
Embedding of the segmentation helpers of DataParser in src/parser/data.py.
Tokens are strings; the separator test item in sep keeps the Python
substring semantics via Py.pyInStr.
-/

open Py

/-- Loop of DataParser.segment_separator: segs is the accumulated list of
finished segments and cur the segment in progress; a separator token
flushes cur (possibly empty) and is itself dropped; at the end cur is
appended only when nonempty. -/
def segSepGo (sep : String) (segs : List (List String)) (cur : List String) :
    List String → List (List String)
  | [] => if cur.isEmpty then segs else segs ++ [cur]
  | x :: rest =>
    if pyInStr x sep then segSepGo sep (segs ++ [cur]) [] rest
    else segSepGo sep segs (cur ++ [x]) rest

/-- DataParser.segment_separator from src/parser/data.py. -/
def segment_separator (data : List String) (sep : String) : List (List String) :=
  segSepGo sep [] [] data

/-- Variant of the separator loop that always flushes the final segment,
used to describe the state of segment_separator just after a separator
token has been consumed. -/
def segSepAll (sep : String) (segs : List (List String)) (cur : List String) :
    List String → List (List String)
  | [] => segs ++ [cur]
  | x :: rest =>
    if pyInStr x sep then segSepAll sep (segs ++ [cur]) [] rest
    else segSepAll sep segs (cur ++ [x]) rest

/-- All chunks of a token list delimited by separators, including a final
possibly-empty chunk. -/
def chunksAll (data : List String) (sep : String) : List (List String) :=
  segSepAll sep [] [] data

theorem segSepGo_acc (sep : String) :
    ∀ (data : List String) (segs : List (List String)) (cur : List String),
      segSepGo sep segs cur data = segs ++ segSepGo sep [] cur data := by
  intro data
  induction data with
  | nil =>
    intro segs cur
    by_cases h : cur.isEmpty <;> simp [segSepGo, h]
  | cons x rest ih =>
    intro segs cur
    cases h : pyInStr x sep with
    | true =>
      simp only [segSepGo, h, if_true]
      rw [ih (segs ++ [cur]) [], ih ([] ++ [cur]) []]
      simp
    | false =>
      simp only [segSepGo, h, Bool.false_eq_true, if_false]
      exact ih segs (cur ++ [x])

theorem segSepAll_acc (sep : String) :
    ∀ (data : List String) (segs : List (List String)) (cur : List String),
      segSepAll sep segs cur data = segs ++ segSepAll sep [] cur data := by
  intro data
  induction data with
  | nil => intro segs cur; simp [segSepAll]
  | cons x rest ih =>
    intro segs cur
    cases h : pyInStr x sep with
    | true =>
      simp only [segSepAll, h, if_true]
      rw [ih (segs ++ [cur]) [], ih ([] ++ [cur]) []]
      simp
    | false =>
      simp only [segSepAll, h, Bool.false_eq_true, if_false]
      exact ih segs (cur ++ [x])

theorem segSepGo_split (sep s : String) (hs : pyInStr s sep = true) :
    ∀ (d : List String) (segs : List (List String)) (cur : List String)
      (rest : List String),
      segSepGo sep segs cur (d ++ s :: rest) =
        segSepGo sep (segSepAll sep segs cur d) [] rest := by
  intro d
  induction d with
  | nil =>
    intro segs cur rest
    simp only [List.nil_append, segSepGo, segSepAll, hs, if_true]
  | cons x xs ih =>
    intro segs cur rest
    cases h : pyInStr x sep with
    | true =>
      simp only [List.cons_append, segSepGo, segSepAll, h, if_true]
      exact ih (segs ++ [cur]) [] rest
    | false =>
      simp only [List.cons_append, segSepGo, segSepAll, h, Bool.false_eq_true, if_false]
      exact ih segs (cur ++ [x]) rest

theorem segment_separator_no_sep (sep : String) :
    ∀ (data : List String) (segs : List (List String)) (cur : List String),
      (∀ g ∈ segs, ∀ x ∈ g, pyInStr x sep = false) →
      (∀ x ∈ cur, pyInStr x sep = false) →
      ∀ g ∈ segSepGo sep segs cur data, ∀ x ∈ g, pyInStr x sep = false := by
  intro data
  induction data with
  | nil =>
    intro segs cur hsegs hcur g hg
    cases h : cur.isEmpty with
    | true =>
      simp only [segSepGo, h, if_true] at hg
      exact hsegs g hg
    | false =>
      simp only [segSepGo, h, Bool.false_eq_true, if_false] at hg
      rcases List.mem_append.mp hg with h1 | h1
      · exact hsegs g h1
      · intro x hx
        rw [List.mem_singleton.mp h1] at hx
        exact hcur x hx
  | cons t rest ih =>
    intro segs cur hsegs hcur g hg
    cases h : pyInStr t sep with
    | true =>
      simp only [segSepGo, h, if_true] at hg
      refine ih (segs ++ [cur]) [] ?_ (by simp) g hg
      intro g2 hg2
      rcases List.mem_append.mp hg2 with h1 | h1
      · exact hsegs g2 h1
      · intro x hx
        rw [List.mem_singleton.mp h1] at hx
        exact hcur x hx
    | false =>
      simp only [segSepGo, h, Bool.false_eq_true, if_false] at hg
      refine ih segs (cur ++ [t]) hsegs ?_ g hg
      intro x hx
      rcases List.mem_append.mp hx with h1 | h1
      · exact hcur x h1
      · rw [List.mem_singleton.mp h1]
        exact h

theorem segSepGo_finish (sep : String) (segs : List (List String)) :
    segSepGo sep segs [] [] = segs := by
  simp [segSepGo]

/-- C10: segment_separator drops every separator token from its output; a
separator as the last token only flushes the group in progress and adds no
trailing empty group (the final group is appended only when nonempty);
a separator as the first token, or one immediately following another
separator, contributes an empty group. -/
theorem segment_separator_behavior :
    (∀ (data : List String) (sep : String), ∀ g ∈ segment_separator data sep,
        ∀ x ∈ g, pyInStr x sep = false) ∧
    (∀ (d : List String) (s sep : String), pyInStr s sep = true →
        segment_separator (d ++ [s]) sep = chunksAll d sep) ∧
    (∀ (rest : List String) (s sep : String), pyInStr s sep = true →
        segment_separator (s :: rest) sep = [] :: segment_separator rest sep) ∧
    (∀ (d rest : List String) (s₁ s₂ sep : String),
        pyInStr s₁ sep = true → pyInStr s₂ sep = true →
        segment_separator (d ++ s₁ :: s₂ :: rest) sep =
          chunksAll d sep ++ [] :: segment_separator rest sep) := by
  refine ⟨?_, ?_, ?_, ?_⟩
  · intro data sep g hg x hx
    exact segment_separator_no_sep sep data [] [] (by simp) (by simp) g hg x hx
  · intro d s sep hs
    show segSepGo sep [] [] (d ++ s :: []) = chunksAll d sep
    rw [segSepGo_split sep s hs d [] [] [], segSepGo_finish]
    rfl
  · intro rest s sep hs
    show segSepGo sep [] [] (s :: rest) = [] :: segment_separator rest sep
    rw [segSepGo]
    simp only [hs, if_true]
    rw [segSepGo_acc sep rest ([] ++ [[]]) []]
    rfl
  · intro d rest s₁ s₂ sep h₁ h₂
    show segSepGo sep [] [] (d ++ s₁ :: s₂ :: rest) =
      chunksAll d sep ++ [] :: segment_separator rest sep
    rw [segSepGo_split sep s₁ h₁ d [] [] (s₂ :: rest), segSepGo]
    simp only [h₂, if_true]
    rw [segSepGo_acc sep rest (segSepAll sep [] [] d ++ [[]]) []]
    simp [segment_separator, chunksAll]

/-- Witness for segment_separator_behavior at concrete inputs: a trailing
separator yields no trailing empty group, a leading separator and a doubled
separator each yield one empty group, and no separator appears in any
output group. -/
theorem segment_separator_behavior_witness :
    segment_separator ["a", "|"] "|" = [["a"]] ∧
    segment_separator ["|", "a"] "|" = [[], ["a"]] ∧
    segment_separator ["a", "|", "|", "b"] "|" = [["a"], [], ["b"]] ∧
    pyInStr "a" "|" = false :=
  ⟨(segment_separator_behavior.2.1 ["a"] "|" "|" (by decide)).trans (by decide),
   (segment_separator_behavior.2.2.1 ["a"] "|" "|" (by decide)).trans (by decide),
   (segment_separator_behavior.2.2.2 ["a"] ["b"] "|" "|" "|" (by decide) (by decide)).trans
     (by decide),
   segment_separator_behavior.1 ["|", "a"] "|" ["a"] (by decide) "a" (by decide)⟩

end DataSeg

namespace RegexU

/-!
Embedding of RegexSearch in src/src/sprouts/regex/regex_utils.py.
The synthesized patterns are alternations of literal fragments, so
re.findall is modelled by a scanner over the list of alternatives.
-/

open Py

/-- Leading and trailing whitespace removal, the model of str.strip(). -/
def trimChars (l : List Char) : List Char :=
  ((l.dropWhile Char.isWhitespace).reverse.dropWhile Char.isWhitespace).reverse

/-- RegexSearch.strip_pattern: remove a leading caret anchor and a trailing
dollar anchor if present, then strip whitespace. -/
def strip_pattern (p : String) : String :=
  let l₁ := if chListPre ['^'] p.data then p.data.drop 1 else p.data
  let l₂ := if chListPre ['$'] l₁.reverse then l₁.dropLast else l₁
  String.mk (trimChars l₂)

/-- RegexSearch.concat_patterns: strip each pattern of its anchors, join
with the separator inside a non-capturing group, and re-anchor the whole
group when anchors is true. -/
def concat_patterns (patterns : List String) (sep : String) (anchors : Bool) : String :=
  let ret := patterns.map strip_pattern
  if anchors then "^(?:" ++ String.intercalate sep ret ++ ")$"
  else "(?:" ++ String.intercalate sep ret ++ ")"

/-- First alternative (in the given order) that matches at the current
position, mirroring how a regex alternation of literals matches. -/
def findAlt (alts : List String) (cs : List Char) : Option String :=
  alts.find? (fun a => chListPre a.data cs)

/-- Scanner loop for re.findall with an alternation-of-literals pattern:
at each position emit the first alternative that matches and resume right
after it; otherwise advance one character. The fuel argument bounds the
number of steps; the input length is always enough. -/
def findallGo (alts : List String) : Nat → List Char → List String
  | 0, _ => []
  | _ + 1, [] => []
  | f + 1, c :: cs =>
    match findAlt alts (c :: cs) with
    | some a =>
      if a.data.isEmpty then findallGo alts f cs
      else a :: findallGo alts f (List.drop (a.data.length - 1) cs)
    | none => findallGo alts f cs

/-- Model of re.findall(pattern, s) where pattern is the alternation of the
literal fragments alts inside one non-capturing group, exactly the shape
concat_patterns produces from literal values. -/
def regexFindallAlts (alts : List String) (s : String) : List String :=
  findallGo alts s.data.length s.data

/-- RegexSearch.compare_lists: synthesize the alternation pattern of the
base list (concat_patterns with its outer anchors cut off), collect the
candidate items the pattern finds in the space-joined candidate text, and
report unfound candidates as missing. -/
def compare_lists (baseL compL : List String) : List String × List String :=
  let alts := baseL.map strip_pattern
  let found := regexFindallAlts alts (String.intercalate " " compL)
  (found, compL.filter (fun item => !found.contains item))

/-- C9: the pattern synthesized from the base list of literals 12, 34, 56
is the anchored alternation, and compare_lists against the candidates
12, 99, 34 returns exactly the matches 12, 34 and the misses 99. -/
theorem compare_lists_concrete :
    concat_patterns ["12", "34", "56"] "|" true = "^(?:12|34|56)$" ∧
    compare_lists ["12", "34", "56"] ["12", "99", "34"] = (["12", "34"], ["99"]) := by
  constructor
  · decide
  · decide

end RegexU

namespace SproutsCT

/-!
Embedding of the cell-filling part of SproutsParser.create_table in
src/sprouts_parser.py: for each value of the Total Values column the scan
column cells and the shipment column cells are produced, and the value
itself is appended as the Total Values cell.
-/

/-- One step of the loop over scan column rows in create_table; the state
is the list of produced cells together with the running in_scan flag, which
the loop sets to true when it finds the value in a scan row. -/
def fillScanStep (value missing incorrect : String) (st : List String × Bool)
    (row : List String) : List String × Bool :=
  if value ∉ row ∧ st.2 = false then (st.1 ++ [incorrect], st.2)
  else if value ∉ row ∧ st.2 = true then (st.1 ++ [missing], st.2)
  else (st.1 ++ [value], true)

/-- The loop over scan column rows in create_table. -/
def fillScanCells (value missing incorrect : String) (inScan : Bool)
    (scanRows : List (List String)) : List String × Bool :=
  scanRows.foldl (fillScanStep value missing incorrect) ([], inScan)

/-- One cell of the loop over non-scan (shipment) rows in create_table. -/
def fillShipCell (value missing scanMissing incorrect : String)
    (inScan inRows : Bool) (row : List String) : String :=
  if value ∉ row ∧ inScan = true then (if inRows = true then missing else scanMissing)
  else if value ∉ row ∧ inScan = false then incorrect
  else value

/-- Assembly of one row from the state left by the scan loop: scan cells,
then shipment cells computed with the final in_scan flag and the in_rows
membership flag, then the value itself as the Total Values cell. -/
def fillRowAux (missing scanMissing incorrect : String)
    (shipRows : List (List String)) (value : String)
    (st : List String × Bool) : List String :=
  st.1 ++ shipRows.map
      (fillShipCell value missing scanMissing incorrect st.2
        (decide (value ∈ shipRows.flatten))) ++ [value]

/-- The complete row create_table produces for one Total Values entry.
The in_scan flag starts as membership of the value in any scan row when
scan columns are in use and as true otherwise, and is threaded through the
scan loop before the shipment loop reads it. -/
def fillRowFor (missing scanMissing incorrect : String)
    (scanRows shipRows : List (List String)) (useScan : Bool)
    (value : String) : List String :=
  fillRowAux missing scanMissing incorrect shipRows value
    (fillScanCells value missing incorrect
      (if useScan then decide (value ∈ scanRows.flatten) else true) scanRows)

/-- The row block of SproutsParser.create_table: an invalid invoice_scan
(negative or larger than the group count) is reset to 0, the first
invoice_scan groups are popped off as scan rows, and one filled row is
produced per Total Values entry. -/
def create_table_rows (missing scanMissing incorrect : String)
    (groups : List (List String)) (totalValues : List String)
    (invoiceScan : Int) : List (List String) :=
  let k : Nat := if invoiceScan < 0 ∨ invoiceScan > (groups.length : Int) then 0
    else invoiceScan.toNat
  let scanRows := groups.take k
  let shipRows := groups.drop k
  totalValues.map (fillRowFor missing scanMissing incorrect scanRows shipRows (decide (k ≠ 0)))

theorem fillScanCells_go (value missing incorrect : String) :
    ∀ (rows : List (List String)) (acc : List String),
      (∀ r ∈ rows, value ∉ r) →
      rows.foldl (fillScanStep value missing incorrect) (acc, false) =
        (acc ++ rows.map (fun _ => incorrect), false) := by
  intro rows
  induction rows with
  | nil => intro acc _; simp
  | cons r rest ih =>
    intro acc hall
    have hr : value ∉ r := hall r (by simp)
    have hstep : fillScanStep value missing incorrect (acc, false) r =
        (acc ++ [incorrect], false) := by
      simp [fillScanStep, hr]
    rw [List.foldl_cons, hstep, ih (acc ++ [incorrect]) (fun g hg => hall g (by simp [hg]))]
    simp

theorem fillScanCells_length (value missing incorrect : String) :
    ∀ (rows : List (List String)) (acc : List String) (b : Bool),
      (rows.foldl (fillScanStep value missing incorrect) (acc, b)).1.length =
        acc.length + rows.length := by
  intro rows
  induction rows with
  | nil => intro acc b; simp
  | cons r rest ih =>
    intro acc b
    rw [List.foldl_cons]
    have hstep : ∃ x b₂, fillScanStep value missing incorrect (acc, b) r = (acc ++ [x], b₂) := by
      unfold fillScanStep
      by_cases h1 : value ∉ r ∧ b = false
      · exact ⟨incorrect, b, by rw [if_pos h1]⟩
      · by_cases h2 : value ∉ r ∧ b = true
        · exact ⟨missing, b, by rw [if_neg h1, if_pos h2]⟩
        · exact ⟨value, true, by rw [if_neg h1, if_neg h2]⟩
    obtain ⟨x, b₂, hx⟩ := hstep
    rw [hx, ih (acc ++ [x]) b₂]
    simp only [List.length_append, List.length_cons, List.length_nil]
    omega

theorem fillScanCells_fst_length (value missing incorrect : String) (b : Bool)
    (rows : List (List String)) :
    (fillScanCells value missing incorrect b rows).1.length = rows.length := by
  unfold fillScanCells
  rw [fillScanCells_length]
  simp

theorem fillRowAux_length (missing scanMissing incorrect : String)
    (shipRows : List (List String)) (value : String) (st : List String × Bool) :
    (fillRowAux missing scanMissing incorrect shipRows value st).length =
      st.1.length + shipRows.length + 1 := by
  unfold fillRowAux
  simp
  omega

/-- C1: in a table built with at least one scan group, a universe value
that appears in no scan group gets the invalid sentinel (incorrect label)
in every absent cell of its row, in scan and shipment columns alike: every
scan cell is the incorrect label and every shipment cell is either the
value itself (where present) or the incorrect label, never the missing
label. The second conjunct ties this row shape to create_table_rows. -/
theorem fillRowAux_mk (missing scanMissing incorrect : String)
    (shipRows : List (List String)) (value : String)
    (cells : List String) (flag : Bool) :
    fillRowAux missing scanMissing incorrect shipRows value (cells, flag) =
      cells ++ shipRows.map
          (fillShipCell value missing scanMissing incorrect flag
            (decide (value ∈ shipRows.flatten))) ++ [value] := rfl

theorem fill_invalid_not_in_scan (missing scanMissing incorrect : String)
    (groups : List (List String)) (totalValues : List String)
    (k : Nat) (value : String)
    (hk1 : 1 ≤ k) (hk2 : k ≤ groups.length)
    (hv : value ∉ (groups.take k).flatten) :
    fillRowFor missing scanMissing incorrect (groups.take k) (groups.drop k) true value =
      (groups.take k).map (fun _ => incorrect) ++
        (groups.drop k).map (fun r => if value ∈ r then value else incorrect) ++ [value] ∧
    create_table_rows missing scanMissing incorrect groups totalValues (k : Int) =
      totalValues.map
        (fillRowFor missing scanMissing incorrect (groups.take k) (groups.drop k) true) := by
  have hnotany : ∀ r ∈ groups.take k, value ∉ r := by
    intro r hr hmem
    exact hv (List.mem_flatten.mpr ⟨r, hr, hmem⟩)
  constructor
  · have hscan0 : decide (value ∈ (groups.take k).flatten) = false := by
      simp [hv]
    unfold fillRowFor
    rw [if_pos rfl, hscan0]
    unfold fillScanCells
    rw [fillScanCells_go value missing incorrect (groups.take k) [] hnotany, fillRowAux_mk]
    simp only [List.nil_append]
    congr 1
    congr 1
    apply List.map_congr_left
    intro r _
    unfold fillShipCell
    by_cases hmem : value ∈ r
    · simp [hmem]
    · simp [hmem]
  · have hcond : ¬ ((k : Int) < 0 ∨ (k : Int) > (groups.length : Int)) := by
      push_neg
      constructor
      · exact_mod_cast Nat.zero_le k
      · exact_mod_cast hk2
    have hdec : decide (k ≠ 0) = true := by
      simp only [decide_eq_true_eq]
      omega
    simp only [create_table_rows, if_neg hcond, Int.toNat_natCast, hdec]

/-- Witness for fill_invalid_not_in_scan: spec scenario with groups 10 and
10 20, scan count 1, value 20; the scan column cell is the invalid label,
not the missing label. -/
theorem fill_invalid_not_in_scan_witness :
    fillRowFor "----" "////" "!!!!" [["10"]] [["10", "20"]] true "20" =
      ["!!!!", "20", "20"] ∧ "!!!!" ≠ "----" :=
  ⟨((fill_invalid_not_in_scan "----" "////" "!!!!" [["10"], ["10", "20"]] ["10", "20"]
      1 "20" (by decide) (by decide) (by decide)).1).trans (by decide),
   by decide⟩

/-- C4: every row produced by the create_table row block has exactly one
cell per group plus one Total Values cell. -/
theorem create_table_rows_length (missing scanMissing incorrect : String)
    (groups : List (List String)) (totalValues : List String) (invoiceScan : Int) :
    ∀ row ∈ create_table_rows missing scanMissing incorrect groups totalValues invoiceScan,
      row.length = groups.length + 1 := by
  intro row hrow
  simp only [create_table_rows] at hrow
  rcases List.mem_map.mp hrow with ⟨v, _, hveq⟩
  subst hveq
  unfold fillRowFor
  rw [fillRowAux_length, fillScanCells_fst_length]
  simp only [List.length_take, List.length_drop]
  omega

/-- Witness for create_table_rows_length on the spec scenario table. -/
theorem create_table_rows_length_witness :
    (["!!!!", "20", "20"] : List String).length = 2 + 1 :=
  create_table_rows_length "----" "////" "!!!!" [["10"], ["10", "20"]] ["10", "20"] 1
    ["!!!!", "20", "20"] (by decide)

end SproutsCT

instance {ε α : Type} [DecidableEq ε] [DecidableEq α] : DecidableEq (Except ε α) := fun a b =>
  match a, b with
  | .error x, .error y =>
    if h : x = y then .isTrue (by rw [h])
    else .isFalse (fun hc => h (Except.error.inj hc))
  | .ok x, .ok y =>
    if h : x = y then .isTrue (by rw [h])
    else .isFalse (fun hc => h (Except.ok.inj hc))
  | .error _, .ok _ => .isFalse (fun hc => Except.noConfusion hc)
  | .ok _, .error _ => .isFalse (fun hc => Except.noConfusion hc)

namespace TablesSprouts

/-!
Embedding of the SproutsTable scan-count handling in
src/src/sprouts/parser/tables.py: the clamp in the initializer and the
row fill of _update_values.
-/

/-- A cell of the pandas DataFrame: a string value, or none for the float
NaN of an absent cell. -/
abbrev Cell := Option String

/-- The clamp of num_scan_col in SproutsTable.__init__: negative counts
become 0 and counts above the column count become the column count. -/
def clampNumScanCol (n : Int) (ncols : Nat) : Nat :=
  if n < 0 then 0
  else if n > (ncols : Int) then ncols
  else n.toNat

/-- Cases 2 to 4 of the fill logic of SproutsTable._update_values for one
cell that did not parse as an int, keyed on whether the row value occurs in
any scan column, whether it occurs in any shipment column, and whether this
cell sits in a scan column. -/
def classifyCell (inScan inShipment isScanCol : Bool) (cell : Cell) : Cell :=
  if inScan = true ∧ inShipment = true then
    (if isScanCol then some "....." else some "-----")
  else if inScan = true ∧ inShipment = false then
    (if isScanCol then some "....." else some "/////")
  else if inScan = false then some "!!!!!"
  else cell

/-- SproutsTable._update_values on one row. With no effective scan columns
(count at most 0 or at least the column count) every cell different from
the row name becomes the generic sentinel. Otherwise each cell that parses
as an int is left alone and every other cell (including the NaN of an
absent cell, on which int() raises) is classified by membership. Cells are
paired with the scan-column flag of their column. -/
def updateValuesRow (numScanCol : Int) (ncols : Nat) (inScan inShipment : Bool)
    (rowName : String) (cells : List (Cell × Bool)) : List Cell :=
  if numScanCol ≤ 0 ∨ numScanCol ≥ (ncols : Int) then
    cells.map (fun p => if p.1 = some rowName then p.1 else some "-----")
  else
    cells.map (fun p =>
      if (Py.cellInt? p.1).isSome then p.1
      else classifyCell inScan inShipment p.2 p.1)

/-- C5: table construction clamps the scan count at both ends, a count of
at most 0 becoming 0 and a count of at least the number of groups becoming
that number; and with a clamped count of 0 the fill step replaces every
cell other than the row name, in particular every absent cell, with the
single generic sentinel. -/
theorem scan_count_clamped (n : Int) (ncols : Nat) (inScan inShipment : Bool)
    (rowName : String) (cells : List (Cell × Bool)) :
    (n ≤ 0 → clampNumScanCol n ncols = 0) ∧
    ((ncols : Int) ≤ n → clampNumScanCol n ncols = ncols) ∧
    (n ≤ 0 →
      updateValuesRow (clampNumScanCol n ncols) ncols inScan inShipment rowName cells =
        cells.map (fun p => if p.1 = some rowName then p.1 else some "-----")) ∧
    (n ≤ 0 → ∀ (i : Nat) (p : Cell × Bool), cells[i]? = some p → p.1 = none →
      (updateValuesRow (clampNumScanCol n ncols) ncols inScan inShipment rowName
          cells)[i]? = some (some "-----")) := by
  have hclamp0 : n ≤ 0 → clampNumScanCol n ncols = 0 := by
    intro hn
    unfold clampNumScanCol
    split_ifs with h1 h2 <;> omega
  have hgen : n ≤ 0 →
      updateValuesRow (clampNumScanCol n ncols) ncols inScan inShipment rowName cells =
        cells.map (fun p => if p.1 = some rowName then p.1 else some "-----") := by
    intro hn
    rw [hclamp0 hn]
    unfold updateValuesRow
    rw [if_pos]
    left
    decide
  refine ⟨hclamp0, ?_, hgen, ?_⟩
  · intro hn
    unfold clampNumScanCol
    split_ifs with h1 h2 <;> omega
  · intro hn i p hip hnone
    rw [hgen hn, List.getElem?_map, hip]
    simp [hnone]

/-- Witness for scan_count_clamped: a count of -3 with 2 columns clamps to
0 and generic-fills the absent cell; a count of 5 with 2 columns clamps
to 2. -/
theorem scan_count_clamped_witness :
    clampNumScanCol (-3) 2 = 0 ∧
    clampNumScanCol 5 2 = 2 ∧
    updateValuesRow (clampNumScanCol (-3) 2) 2 true false "10"
        [(none, true), (some "10", false)] = [some "-----", some "10"] ∧
    (updateValuesRow (clampNumScanCol (-3) 2) 2 true false "10"
        [(none, true), (some "10", false)])[0]? = some (some "-----") :=
  ⟨(scan_count_clamped (-3) 2 true false "10" [(none, true), (some "10", false)]).1
      (by decide),
   (scan_count_clamped 5 2 true false "10" []).2.1 (by decide),
   ((scan_count_clamped (-3) 2 true false "10" [(none, true), (some "10", false)]).2.2.1
      (by decide)).trans (by decide),
   (scan_count_clamped (-3) 2 true false "10" [(none, true), (some "10", false)]).2.2.2
      (by decide) 0 (none, true) (by decide) rfl⟩

end TablesSprouts

namespace Py

/-- A raised Python exception, by class: _segment catches ValueError and
re-raises it wrapped, while an IndexError propagates uncaught; the carried
string is the exception message (what str(e) interpolates). -/
inductive PyErr where
  | valueError (msg : String)
  | indexError (msg : String)
deriving DecidableEq

/-- A string in single quotes, as Python repr renders a plain token that
contains no quote characters. -/
def pyQuote (s : String) : String :=
  String.mk (Char.ofNat 39 :: (s.data ++ [Char.ofNat 39]))

/-- Python repr of a list of plain tokens, as an f-string interpolates it:
the quoted items, comma-space separated, in square brackets. -/
def pyReprList (l : List String) : String :=
  "[" ++ String.intercalate ", " (l.map pyQuote) ++ "]"

end Py

namespace DataSeg

/-- Flush test of DataParser.segment_monotonic for the incoming value given
the previous one: no flush on the first value or after an empty previous
token (both are falsy); otherwise a flush on a numeric decrease, and also
whenever int() fails on either side (the ValueError branch). -/
def monoFlush (last : Option String) (v : String) : Bool :=
  match last with
  | none => false
  | some l =>
    if l = "" then false
    else
      match Py.pyIntOfStr v, Py.pyIntOfStr l with
      | some vi, some li => decide (vi < li)
      | _, _ => true

/-- Loop of DataParser.segment_monotonic. -/
def segMonoGo (segs : List (List String)) (cur : List String) (last : Option String) :
    List String → List (List String)
  | [] => segs ++ [cur]
  | v :: rest =>
    if monoFlush last v then segMonoGo (segs ++ [cur]) [v] (some v) rest
    else segMonoGo segs (cur ++ [v]) (some v) rest

/-- DataParser.segment_monotonic from src/parser/data.py. -/
def segment_monotonic (lines : List String) : List (List String) :=
  segMonoGo [] [] none lines

/-- Loop of DataParser.segment_duplicates. -/
def segDupGo (ignore : String) (segs : List (List String)) (cur : List String) :
    List String → List (List String)
  | [] => segs ++ [cur]
  | l :: rest =>
    if Py.pyInStr l ignore then segDupGo ignore segs cur rest
    else if l ∈ cur then segDupGo ignore (segs ++ [cur]) [l] rest
    else segDupGo ignore segs (cur ++ [l]) rest

/-- DataParser.segment_duplicates from src/parser/data.py. -/
def segment_duplicates (lines : List String) (ignore : String) : List (List String) :=
  segDupGo ignore [] [] lines

/-- Conversion of every token to an int as DataParser.intify does, or none
when any int() call raises. -/
def allIntStr (data : List String) : Option (List Int) :=
  if data.all (fun s => (Py.pyIntOfStr s).isSome) then some (data.filterMap Py.pyIntOfStr)
  else none

/-- Python format-spec padding of one item with a fill character, an
alignment character and a width; items at least as long as the width are
returned unchanged. -/
def pyFormatPad (padc justc : Char) (width : Nat) (item : String) : String :=
  if width ≤ item.data.length then item
  else
    match justc with
    | '>' => String.mk (List.replicate (width - item.data.length) padc ++ item.data)
    | '<' => String.mk (item.data ++ List.replicate (width - item.data.length) padc)
    | _ => String.mk (List.replicate ((width - item.data.length) / 2) padc ++ item.data ++
        List.replicate ((width - item.data.length) - (width - item.data.length) / 2) padc)

/-- DataParser.pad_list from src/parser/data.py: drop tokens contained in
the remove string, normalize through int conversion when every token
converts, compute the maximum length when none is given (a ValueError on
empty data, as max() raises), translate the justify mode (a ValueError on
any other mode), and pad each item; an item contained in the ignore string
is padded with its own first character, which raises an IndexError on the
empty string. The carried messages are the Python exception messages. -/
def pad_list (data : List String) (padc : Char) (justify : String)
    (maxLength : Nat) (remove : String) (ignore : String) :
    Except Py.PyErr (List String) := do
  let data₁ := data.filter (fun item => ! Py.pyInStr item remove)
  let data₂ := match allIntStr data₁ with
    | some ints => Py.stringifyInts ints
    | none => data₁
  let maxLen ← (if maxLength ≠ 0 then Except.ok maxLength
    else if data₂.isEmpty then
      Except.error (.valueError "max() arg is an empty sequence")
    else Except.ok ((data₂.map (fun s => s.data.length)).foldl Nat.max 0))
  let justc ← (if justify = "l" ∨ justify = "left" then Except.ok '>'
    else if justify = "r" ∨ justify = "right" then Except.ok '<'
    else if justify = "c" ∨ justify = "center" then Except.ok '^'
    else Except.error (.valueError ("Invalid `justify` value: " ++ justify)))
  data₂.mapM (fun item =>
    if ! Py.pyInStr item ignore then Except.ok (pyFormatPad padc justc maxLen item)
    else match item.data with
      | [] => Except.error (Py.PyErr.indexError "string index out of range")
      | c :: _ => Except.ok (pyFormatPad c justc maxLen item))

end DataSeg

namespace SproutsCT

/-- SproutsParser._segment from src/sprouts_parser.py: the duplicate and
separator strategies run on the raw tokens, the monotonic strategy on the
zero-padded tokens. A ValueError from pad_list is caught and re-raised
wrapped, its message followed by the repr of the data value, which at that
point is still the original token list since the assignment never
completed; an IndexError from pad_list is not caught and propagates as is.
With a nonzero expected row count the first strategy whose group count
matches is returned in the order separator, monotonic, duplicates, and
when none matches a ValueError is raised whose message is the run-together
f-string literals followed by the repr of the padded token list; with no
expected count the first nonempty result wins in the same order. -/
def parserSegment (data : List String) (maxRows : Nat) (ignore : String) :
    Except Py.PyErr (List (List String)) :=
  let dups := DataSeg.segment_duplicates data ignore
  let seps := DataSeg.segment_separator data ignore
  match DataSeg.pad_list data '0' "l" 0 ignore "" with
  | .error (.valueError e) => .error (.valueError
      ("Error segmenting data: " ++ e ++ "\nvalue: " ++ Py.pyReprList data ++ "\n"))
  | .error (.indexError e) => .error (.indexError e)
  | .ok padded =>
    let mono := DataSeg.segment_monotonic padded
    if maxRows ≠ 0 then
      if seps.length = maxRows then .ok seps
      else if mono.length = maxRows then .ok mono
      else if dups.length = maxRows then .ok dups
      else .error (.valueError
        ("Error segmenting data: No segmentationmethods returned the correct number ofrows.\nvalue: "
          ++ Py.pyReprList padded))
    else .ok (if !seps.isEmpty then seps else if !mono.isEmpty then mono else dups)

/-- C2 counterexample: on the tokens 1 2 | 1 2 with expected count 2 all
three strategies produce exactly 2 groups, yet segmentation returns the
separator result instead of raising the error the claim requires when more
than one strategy matches. -/
theorem segment_multiple_match_no_error :
    (DataSeg.segment_separator ["1", "2", "|", "1", "2"] "|").length = 2 ∧
    (DataSeg.segment_duplicates ["1", "2", "|", "1", "2"] "|").length = 2 ∧
    DataSeg.pad_list ["1", "2", "|", "1", "2"] '0' "l" 0 "|" "" =
      .ok ["1", "2", "1", "2"] ∧
    (DataSeg.segment_monotonic ["1", "2", "1", "2"]).length = 2 ∧
    parserSegment ["1", "2", "|", "1", "2"] 2 "|" = .ok [["1", "2"], ["1", "2"]] := by
  refine ⟨by decide, by decide, by decide, by decide, by decide⟩

/-- C2 amended: with a nonzero expected count and a successful padding
step, segmentation returns the first strategy whose result has exactly
that many groups, in the priority order separator, monotonic, duplicate,
even when several strategies match; only when no strategy matches does it
raise a ValueError, whose message is the run-together f-string literals
followed by the repr of the padded token list, naming no candidate
counts. -/
theorem segment_selection_policy (data : List String) (n : Nat) (ignore : String)
    (padded : List String) (hn : n ≠ 0)
    (hpad : DataSeg.pad_list data '0' "l" 0 ignore "" = .ok padded) :
    ((DataSeg.segment_separator data ignore).length = n →
      parserSegment data n ignore = .ok (DataSeg.segment_separator data ignore)) ∧
    ((DataSeg.segment_separator data ignore).length ≠ n →
      (DataSeg.segment_monotonic padded).length = n →
      parserSegment data n ignore = .ok (DataSeg.segment_monotonic padded)) ∧
    ((DataSeg.segment_separator data ignore).length ≠ n →
      (DataSeg.segment_monotonic padded).length ≠ n →
      (DataSeg.segment_duplicates data ignore).length = n →
      parserSegment data n ignore = .ok (DataSeg.segment_duplicates data ignore)) ∧
    ((DataSeg.segment_separator data ignore).length ≠ n →
      (DataSeg.segment_monotonic padded).length ≠ n →
      (DataSeg.segment_duplicates data ignore).length ≠ n →
      parserSegment data n ignore = .error (.valueError
        ("Error segmenting data: No segmentationmethods returned the correct number ofrows.\nvalue: "
          ++ Py.pyReprList padded)))
    := by
  refine ⟨?_, ?_, ?_, ?_⟩
  · intro h1
    simp [parserSegment, hpad, hn, h1]
  · intro h1 h2
    simp [parserSegment, hpad, hn, h1, h2]
  · intro h1 h2 h3
    simp [parserSegment, hpad, hn, h1, h2, h3]
  · intro h1 h2 h3
    simp [parserSegment, hpad, hn, h1, h2, h3]

/-- Witness for segment_selection_policy: on 1 2 | 3 with expected count 2
only the separator strategy matches and its result is returned. -/
theorem segment_selection_policy_witness :
    parserSegment ["1", "2", "|", "3"] 2 "|" = .ok [["1", "2"], ["3"]] :=
  ((segment_selection_policy ["1", "2", "|", "3"] 2 "|" ["1", "2", "3"] (by decide)
      (by decide)).1 (by decide)).trans (by decide)

end SproutsCT

namespace Tables

/-!
Embedding of the Analyzer part of Table in src/src/sprouts/parser/tables.py.
The DataFrame is modelled by its list of columns; filter_values keeps the
re.match semantics of filter_list, which removes a value when any escaped
filter value matches at its start (and removes everything when the filter
list is empty, since the joined pattern is then empty).
-/

/-- The DataFrame of a Table: the list of columns plus the filter values. -/
structure DFrame where
  cols : List (List String)
  filterValues : List String

/-- Truthiness of a Python list: nonempty lists are truthy; this is what
the callers of validate_indexes actually test. -/
def pyTruthyL (l : List Bool) : Bool := !l.isEmpty

/-- Table.validate_indexes: an empty index list or one shorter than the
minimum yields the failed-validation sentinel list containing True;
otherwise one bound check per index. -/
def validate_indexes (t : DFrame) (idxs : List Int) (m : Nat) : List Bool :=
  if idxs.isEmpty then [true]
  else if idxs.length < m then [true]
  else idxs.map (fun i => decide (0 ≤ i ∧ i < (t.cols.length : Int)))

/-- Whether the compiled alternation of the escaped filter values matches
at the start of the string: some filter value is a leading run of it, and
the empty alternation (no filter values) matches everything. -/
def matchesFilter (fv : List String) (s : String) : Bool :=
  fv.isEmpty || fv.any (fun f => Py.strStarts s f)

/-- Table.filter_list from tables.py. -/
def filter_list (fv : List String) (data : List String) : List String :=
  if data.isEmpty then [] else data.filter (fun v => ! matchesFilter fv v)

/-- Positional column lookup with Python index semantics: indices in range
count from the front, negative indices within range count from the back,
anything else is out of bounds (iloc raises). -/
def pyColIdx (ncols : Nat) (i : Int) : Option Nat :=
  if 0 ≤ i ∧ i < (ncols : Int) then some i.toNat
  else if -(ncols : Int) ≤ i ∧ i < 0 then some (i + ncols).toNat
  else none

/-- Table._get_values for one column index as the relational operations
use it: the (ineffective) validation guard, the iloc column fetch which
raises on an out-of-bounds position, and the filter. -/
def getValuesSingle (t : DFrame) (i : Int) : Except String (List String) :=
  if ! pyTruthyL (validate_indexes t [i] 1) then .ok []
  else
    match pyColIdx t.cols.length i with
    | some k => .ok (filter_list t.filterValues (t.cols.getD k []))
    | none => .error "IndexError: positional indexers are out-of-bounds"

/-- A Python list comprehension over column indices: the first raised
exception propagates. -/
def mapExcept (f : Int → Except String (List String)) :
    List Int → Except String (List (List String))
  | [] => .ok []
  | i :: rest =>
    match f i with
    | .error e => .error e
    | .ok v =>
      match mapExcept f rest with
      | .error e => .error e
      | .ok vs => .ok (v :: vs)

/-- Table.get_overlap on a flat index list: indexing an empty argument
raises at once; the validation guard never fires because the sentinel list
is truthy; then the set intersection of the column value sets in order. -/
def get_overlap (t : DFrame) (idxs : List Int) : Except String (Finset String) :=
  match idxs with
  | [] => .error "IndexError: list index out of range"
  | _ :: _ =>
    if ! pyTruthyL (validate_indexes t idxs 2) then .ok ∅
    else
      match mapExcept (getValuesSingle t) idxs with
      | .error e => .error e
      | .ok vals =>
        match vals.map List.toFinset with
        | [] => .error "IndexError: pop from empty list"
        | s :: rest => .ok (rest.foldl (· ∩ ·) s)

/-- The function get_differences folds with: symmetric difference when the
symmetric flag is set, set difference otherwise (the diff_func selection at
the top of Table.get_differences). -/
def diffOp (symmetric : Bool) (a b : Finset String) : Finset String :=
  if symmetric then symmDiff a b else a \ b

/-- Table.get_differences on a flat index list: the first column set is
the base and each later set is combined with symmetric difference or set
difference according to the symmetric flag. -/
def get_differences (t : DFrame) (idxs : List Int) (symmetric : Bool) :
    Except String (Finset String) :=
  match idxs with
  | [] => .error "IndexError: list index out of range"
  | _ :: _ =>
    if ! pyTruthyL (validate_indexes t idxs 2) then .ok ∅
    else
      match mapExcept (getValuesSingle t) idxs with
      | .error e => .error e
      | .ok vals =>
        match vals.map List.toFinset with
        | [] => .error "IndexError: pop from empty list"
        | s :: rest => .ok (rest.foldl (diffOp symmetric) s)

/-- Table with a single column, used to exhibit the validation slip. -/
def sampleTable : DFrame := ⟨[["10", "20"]], ["-----"]⟩

/-- C3 (code divergence): the failed-validation sentinel [True] is a
truthy list, so the emptiness guard in the Analyzer operations never
fires: get_overlap with one single index, below the documented minimum of
two, returns the whole column instead of the empty list, and an empty
index list raises an IndexError instead of returning an empty result. -/
theorem index_validation_ineffective :
    validate_indexes sampleTable [0] 2 = [true] ∧
    pyTruthyL (validate_indexes sampleTable [0] 2) = true ∧
    get_overlap sampleTable [0] = .ok (["10", "20"].toFinset) ∧
    ["10", "20"].toFinset ≠ (∅ : Finset String) ∧
    get_overlap sampleTable [] = .error "IndexError: list index out of range" := by
  refine ⟨by decide, by decide, by decide, by decide, rfl⟩

theorem validate_truthy (t : DFrame) (idxs : List Int) (m : Nat) (h : idxs ≠ []) :
    pyTruthyL (validate_indexes t idxs m) = true := by
  cases idxs with
  | nil => exact absurd rfl h
  | cons a as =>
    unfold validate_indexes pyTruthyL
    split_ifs <;> rfl

theorem getValuesSingle_cases (t : DFrame) (i : Int) :
    (∃ v, getValuesSingle t i = .ok v) ∨
      getValuesSingle t i = .error "IndexError: positional indexers are out-of-bounds" := by
  unfold getValuesSingle
  cases h : (! pyTruthyL (validate_indexes t [i] 1)) with
  | true => exact .inl ⟨[], by simp⟩
  | false =>
    rw [if_neg (by simp)]
    rcases hc : pyColIdx t.cols.length i with _ | k
    · right
      simp [hc]
    · left
      exact ⟨filter_list t.filterValues (t.cols.getD k []), by simp [hc]⟩

/-- Value of a successful column fetch, the default for an impossible
error. -/
def okValue : Except String (List String) → List String
  | .ok v => v
  | .error _ => []

theorem mapExcept_ok (f : Int → Except String (List String)) :
    ∀ l : List Int, (∀ x ∈ l, ∃ v, f x = .ok v) →
      mapExcept f l = .ok (l.map (fun x => okValue (f x))) := by
  intro l
  induction l with
  | nil => intro _; rfl
  | cons i rest ih =>
    intro hall
    obtain ⟨v, hv⟩ := hall i (by simp)
    unfold mapExcept
    rw [hv, ih (fun x hx => hall x (by simp [hx]))]
    simp [okValue, hv]

theorem mapExcept_error (f : Int → Except String (List String)) (E : String)
    (hf : ∀ x, (∃ v, f x = .ok v) ∨ f x = .error E) :
    ∀ l : List Int, (∃ x ∈ l, f x = .error E) → mapExcept f l = .error E := by
  intro l
  induction l with
  | nil =>
    rintro ⟨x, hx, _⟩
    exact absurd hx (List.not_mem_nil x)
  | cons i rest ih =>
    rintro ⟨x, hx, he⟩
    unfold mapExcept
    rcases hf i with ⟨v, hv⟩ | hv
    · rw [hv]
      have hxrest : x ∈ rest := by
        rcases List.mem_cons.mp hx with h1 | h1
        · subst h1
          rw [he] at hv
          exact absurd hv (by simp)
        · exact h1
      rw [ih ⟨x, hxrest, he⟩]
    · rw [hv]

instance : RightCommutative (symmDiff : Finset String → Finset String → Finset String) :=
  ⟨fun b a₁ a₂ => symmDiff_right_comm b a₁ a₂⟩

theorem empty_symmDiff_fin (s : Finset String) : symmDiff (∅ : Finset String) s = s := by
  rw [← Finset.bot_eq_empty, bot_symmDiff]

/-- Table with two columns used to show order sensitivity of the
asymmetric difference. -/
def diffTable : DFrame := ⟨[["1", "2"], ["2", "3"]], ["-----"]⟩

/-- C8: in symmetric mode get_differences on a flat index list returns the
same value set under every permutation of the index list, while in
asymmetric mode the first listed column is the base, so swapping the first
index changes the result on a concrete table. -/
theorem differences_symmetric_perm :
    (∀ (t : DFrame) (l l₂ : List Int), l.Perm l₂ →
        get_differences t l true = get_differences t l₂ true) ∧
    get_differences diffTable [0, 1] false ≠ get_differences diffTable [1, 0] false := by
  constructor
  · intro t l l₂ hp
    cases l with
    | nil =>
      have h2 : l₂ = [] := hp.nil_eq.symm
      subst h2
      rfl
    | cons a as =>
      obtain ⟨b, bs, rfl⟩ : ∃ b bs, l₂ = b :: bs := by
        cases l₂ with
        | nil => exact absurd hp.eq_nil (by simp)
        | cons b bs => exact ⟨b, bs, rfl⟩
      have hv1 := validate_truthy t (a :: as) 2 (by simp)
      have hv2 := validate_truthy t (b :: bs) 2 (by simp)
      simp only [get_differences, hv1, hv2, Bool.not_true, Bool.false_eq_true, if_false]
      by_cases herr : ∃ x ∈ a :: as,
          getValuesSingle t x = .error "IndexError: positional indexers are out-of-bounds"
      · obtain ⟨x, hx, he⟩ := herr
        have hx₂ : x ∈ b :: bs := hp.mem_iff.mp hx
        rw [mapExcept_error (getValuesSingle t) _ (getValuesSingle_cases t) (a :: as)
            ⟨x, hx, he⟩,
          mapExcept_error (getValuesSingle t) _ (getValuesSingle_cases t) (b :: bs)
            ⟨x, hx₂, he⟩]
      · have hall : ∀ x ∈ a :: as, ∃ v, getValuesSingle t x = .ok v := by
          intro x hx
          rcases getValuesSingle_cases t x with h1 | h1
          · exact h1
          · exact absurd ⟨x, hx, h1⟩ herr
        have hall₂ : ∀ x ∈ b :: bs, ∃ v, getValuesSingle t x = .ok v := by
          intro x hx
          exact hall x (hp.mem_iff.mpr hx)
        rw [mapExcept_ok (getValuesSingle t) (a :: as) hall,
          mapExcept_ok (getValuesSingle t) (b :: bs) hall₂]
        have hop : diffOp true = symmDiff := by
          funext x y
          simp [diffOp]
        simp only [List.map_cons, hop]
        have hfold : ∀ (S : List (Finset String)) (s : Finset String),
            S.foldl symmDiff s = (s :: S).foldl symmDiff ∅ := by
          intro S s
          rw [List.foldl_cons, empty_symmDiff_fin]
        congr 1
        rw [hfold (List.map List.toFinset (List.map (fun x => okValue (getValuesSingle t x)) as))
            ((okValue (getValuesSingle t a)).toFinset),
          hfold (List.map List.toFinset (List.map (fun x => okValue (getValuesSingle t x)) bs))
            ((okValue (getValuesSingle t b)).toFinset)]
        have hperm := (hp.map (fun x => okValue (getValuesSingle t x))).map List.toFinset
        simp only [List.map_cons] at hperm
        apply hperm.foldl_eq
  · decide

/-- Witness for differences_symmetric_perm: the symmetric difference over
columns 0 and 1 of the sample table equals the one over columns 1 and 0. -/
theorem differences_symmetric_perm_witness :
    get_differences diffTable [0, 1] true = get_differences diffTable [1, 0] true :=
  differences_symmetric_perm.1 diffTable [0, 1] [1, 0] (List.Perm.swap 1 0 [])

end Tables

namespace ParserV2

/-!
Embedding of the older Table revision in
src/src/sprouts/parser/sprouts_parser.py: the sorted-series constructor
with its lexicographic fallback and the unique-value pipeline of
align_series_list, which relies on utils.intify_list.
-/

/-- Table._create_series of sprouts_parser.py with sorting enabled: the
sorted duplicate-free int list when every value coerces to int, and the
ValueError fallback sorted(set(data)), which sorts the strings
lexicographically; either way the result is stringified (identity on
strings). -/
def create_series_sorted (data : List String) : List String :=
  if data.all (fun s => (Py.pyIntOfStr s).isSome) then
    Py.stringifyInts (Py.pySortedSet (data.filterMap Py.pyIntOfStr))
  else
    Py.pySortedSet data

/-- Table.filter_list of sprouts_parser.py: a value is removed when the
joined alternation of the raw filter values finds a match anywhere inside
it; for metacharacter-free filter values this is a substring test, and an
empty filter list or an empty filter value matches everything. -/
def filterListV2 (fv : List String) (data : List String) : List String :=
  if data.isEmpty then []
  else data.filter (fun v => ! (fv.isEmpty || fv.any (fun f => Py.pyInStr f v)))

/-- The unique-value pipeline of Table.align_series_list in
sprouts_parser.py: the union of all series values (a Python set, given
here in sorted order), the filter, then utils.intify_list with sorting,
which raises ValueError when any remaining value does not coerce to int,
then utils.stringify_list. -/
def alignUniqueValues (vals : List (List String)) (fv : List String) :
    Except String (List String) :=
  let u := filterListV2 fv (Py.pySortedSet vals.flatten)
  if u.all (fun s => (Py.pyIntOfStr s).isSome) then
    .ok (Py.stringifyInts (List.insertionSort (· ≤ ·) (u.filterMap Py.pyIntOfStr)))
  else .error "ValueError: invalid literal for int() with base 10"

/-- C6 counterexample: on the single series containing the non-numeric
value a, with a filter that does not remove it, series alignment raises a
ValueError out of utils.intify_list instead of falling back to
lexicographic order. -/
theorem align_raises_on_non_numeric :
    alignUniqueValues [["a"]] ["-----"] =
      .error "ValueError: invalid literal for int() with base 10" := by
  decide

/-- C6 amended: when the collected values cannot all be coerced to int,
series creation (the Universe constructor) falls back to the
deterministic lexicographically sorted duplicate-free list without
raising, but series alignment has no such fallback: whenever a value that
does not coerce survives the filter, the intify step of
align_series_list fails with a ValueError. -/
theorem create_series_fallback (data : List String) (fv : List String)
    (vals : List (List String)) (x : String)
    (hx : x ∈ data) (hxnum : Py.pyIntOfStr x = none)
    (y : String) (hy : y ∈ filterListV2 fv (Py.pySortedSet vals.flatten))
    (hynum : Py.pyIntOfStr y = none) :
    create_series_sorted data = Py.pySortedSet data ∧
    List.Sorted (· ≤ ·) (create_series_sorted data) ∧
    alignUniqueValues vals fv =
      .error "ValueError: invalid literal for int() with base 10" := by
  have hall : data.all (fun s => (Py.pyIntOfStr s).isSome) = false := by
    rw [List.all_eq_false]
    exact ⟨x, hx, by simp [hxnum]⟩
  have hcs : create_series_sorted data = Py.pySortedSet data := by
    unfold create_series_sorted
    rw [hall]
    simp
  refine ⟨hcs, ?_, ?_⟩
  · rw [hcs]
    exact Py.pySortedSet_sorted data
  · have hall₂ : (filterListV2 fv (Py.pySortedSet vals.flatten)).all
        (fun s => (Py.pyIntOfStr s).isSome) = false := by
      rw [List.all_eq_false]
      exact ⟨y, hy, by simp [hynum]⟩
    simp only [alignUniqueValues]
    rw [hall₂]
    simp

/-- Witness for create_series_fallback at the value a: the fallback sorts
lexicographically while the alignment raises. -/
theorem create_series_fallback_witness :
    create_series_sorted ["a"] = Py.pySortedSet ["a"] ∧
    List.Sorted (· ≤ ·) (create_series_sorted ["a"]) ∧
    alignUniqueValues [["a"]] ["-----"] =
      .error "ValueError: invalid literal for int() with base 10" :=
  create_series_fallback ["a"] ["-----"] [["a"]] "a" (by decide) (by decide)
    "a" (by decide) (by decide)

end ParserV2

namespace Tables

/-!
Embedding of the hard-refresh path of Table in tables.py: hard_refresh
delegates to reindex_df, which filters every column, rebuilds each as a
sorted unique numeric series (_create_series), aligns all series over the
filtered sorted union of their values (align_series_list, whose sort step
goes through utils.intify_list), and reassembles columns in which each
universe value is either present or NaN.
-/

/-- tables.py filter_list applied to the raw cell values of a column: the
regex match runs on str(val), the kept element is the cell itself. -/
def filterCells (fv : List String) (data : List (Option String)) :
    List (Option String) :=
  if data.isEmpty then []
  else data.filter (fun c => ! matchesFilter fv (Py.pyStrCell c))

/-- The conversion of one cell in the ValueError fallback of
_create_series: int(i) guarded by str(i).isnumeric(). -/
def numericCellInt (c : Option String) : Option Int :=
  if Py.pyIsNumeric (Py.pyStrCell c) then Py.pyIntOfStr (Py.pyStrCell c) else none

/-- Table._create_series of tables.py with sorting on the deduplicated
cell data of one column: the sorted unique int list when every cell
coerces to int (the NaN of an absent cell does not); in the ValueError
fallback, the data is filtered again, non-numeric entries are dropped and
the remaining ints are sorted; either way the result is stringified. -/
def createSeries (fv : List String) (data : List (Option String)) : List String :=
  if data.all (fun c => (Py.cellInt? c).isSome) then
    Py.stringifyInts (Py.pySortedSet (data.filterMap Py.cellInt?))
  else
    Py.stringifyInts (Py.pySortedSet
      ((filterCells fv data).filterMap numericCellInt))

/-- One column of reindex_df before alignment: the column values are
filtered, deduplicated by list(set(...)), and rebuilt by _create_series. -/
def colToSeries (fv : List String) (col : List (Option String)) : List String :=
  createSeries fv (List.dedup (filterCells fv col))

/-- utils.intify_list with sort on the unique values, which raises
ValueError when a value does not coerce to int. -/
def intifySortedStrict (l : List String) : Option (List Int) :=
  if l.all (fun s => (Py.pyIntOfStr s).isSome) then
    some (List.insertionSort (· ≤ ·) (l.filterMap Py.pyIntOfStr))
  else none

/-- Table.reindex_df of tables.py, the body of hard_refresh: an empty
column list fails align_series_list; otherwise the filtered sorted unique
union of the rebuilt series values becomes the universe (the union set is
given here in sorted order; the following filter and sort make the result
independent of the set iteration order), and every series is reindexed
over it with NaN in the absent places. -/
def reindex_df (fv : List String) (cols : List (List (Option String))) :
    Except String (List (List (Option String))) :=
  if cols.isEmpty then .error "ValueError: invalid data given to align_series_list"
  else
    match intifySortedStrict
        (filter_list fv (Py.pySortedSet (cols.map (colToSeries fv)).flatten)) with
    | none => .error "ValueError: invalid literal for int() with base 10"
    | some ints =>
      .ok ((cols.map (colToSeries fv)).map (fun s =>
        (Py.stringifyInts ints).map (fun v => if v ∈ s then some v else none)))

/-- A column whose present cells are all decimal digit tokens; the tables
this program builds satisfy it. -/
def DigitCol (col : List (Option String)) : Prop :=
  ∀ c ∈ col, ∀ s, c = some s → Py.pyIsNumeric s = true

/-- The canonical string list of a finite set of ints: its sorted list,
stringified. -/
def canonF (T : Finset Int) : List String :=
  Py.stringifyInts (T.sort (· ≤ ·))

/-- The int set one column contributes after filtering. -/
def TF (fv : List String) (col : List (Option String)) : Finset Int :=
  ((filterCells fv col).filterMap Py.cellInt?).toFinset

/-- Union of the per-column int sets. -/
def unionTs (Ts : List (Finset Int)) : Finset Int :=
  Ts.foldr (· ∪ ·) ∅

/-- The universe int set reindex_df aligns on: the union of the column
sets, restricted to values whose string form survives the filter. -/
def UFof (fv : List String) (Ts : List (Finset Int)) : Finset Int :=
  (unionTs Ts).filter (fun a => matchesFilter fv (Py.pyStrInt a) = false)

/-- The aligned table over the per-column int sets Ts: one column per set,
reindexed over the universe with NaN in the absent places. -/
def alignedOf (fv : List String) (Ts : List (Finset Int)) :
    List (List (Option String)) :=
  Ts.map (fun T => (canonF (UFof fv Ts)).map
    (fun v => if v ∈ canonF T then some v else none))

theorem filterCells_eq (fv : List String) (data : List (Option String)) :
    filterCells fv data = data.filter (fun c => ! matchesFilter fv (Py.pyStrCell c)) := by
  cases data with
  | nil => rfl
  | cons c cs => rfl

theorem filter_list_eq (fv : List String) (data : List String) :
    filter_list fv data = data.filter (fun v => ! matchesFilter fv v) := by
  cases data with
  | nil => rfl
  | cons c cs => rfl

theorem mem_TF {fv : List String} {col : List (Option String)} {a : Int} :
    a ∈ TF fv col ↔
      ∃ c ∈ col, matchesFilter fv (Py.pyStrCell c) = false ∧ Py.cellInt? c = some a := by
  unfold TF
  rw [filterCells_eq]
  simp [List.mem_toFinset, List.mem_filterMap, List.mem_filter, and_assoc]

theorem mem_unionTs {Ts : List (Finset Int)} {a : Int} :
    a ∈ unionTs Ts ↔ ∃ T ∈ Ts, a ∈ T := by
  induction Ts with
  | nil => simp [unionTs]
  | cons T rest ih =>
    simp only [unionTs, List.foldr_cons, Finset.mem_union]
    rw [show rest.foldr (· ∪ ·) ∅ = unionTs rest from rfl, ih]
    simp

theorem mem_canonF {T : Finset Int} {v : String} :
    v ∈ canonF T ↔ ∃ n ∈ T, v = Py.pyStrInt n := by
  unfold canonF Py.stringifyInts
  simp only [List.mem_map, Finset.mem_sort]
  constructor
  · rintro ⟨n, hn, rfl⟩
    exact ⟨n, hn, rfl⟩
  · rintro ⟨n, hn, rfl⟩
    exact ⟨n, hn, rfl⟩

theorem mem_canonF_pyStrInt {T : Finset Int} (hT : ∀ a ∈ T, 0 ≤ a) {n : Int}
    (hn : 0 ≤ n) : Py.pyStrInt n ∈ canonF T ↔ n ∈ T := by
  rw [mem_canonF]
  constructor
  · rintro ⟨m, hm, heq⟩
    rwa [Py.pyStrInt_inj hn (hT m hm) heq]
  · intro h2
    exact ⟨n, h2, rfl⟩

theorem canonF_elem_form {T : Finset Int} (hT : ∀ a ∈ T, 0 ≤ a) {v : String}
    (hv : v ∈ canonF T) :
    ∃ n : Int, n ∈ T ∧ 0 ≤ n ∧ v = Py.pyStrInt n ∧
      Py.pyIntOfStr v = some n ∧ Py.pyIsNumeric v = true := by
  obtain ⟨n, hn, rfl⟩ := mem_canonF.mp hv
  exact ⟨n, hn, hT n hn, rfl, Py.pyIntOfStr_pyStrInt (hT n hn),
    Py.pyIsNumeric_pyStrInt (hT n hn)⟩

theorem filterCells_of_all (fv : List String) (d : List (Option String))
    (h : ∀ c ∈ d, matchesFilter fv (Py.pyStrCell c) = false) :
    filterCells fv d = d := by
  rw [filterCells_eq]
  apply List.filter_eq_self.mpr
  intro a ha
  simp [h a ha]

theorem colToSeries_canon (fv : List String) (col : List (Option String))
    (hcol : DigitCol col) : colToSeries fv col = canonF (TF fv col) := by
  unfold colToSeries createSeries
  have hdsub : ∀ c ∈ (filterCells fv col).dedup, c ∈ filterCells fv col :=
    fun c hc => List.mem_dedup.mp hc
  have hdpred : ∀ c ∈ (filterCells fv col).dedup,
      matchesFilter fv (Py.pyStrCell c) = false := by
    intro c hc
    have h1 := hdsub c hc
    rw [filterCells_eq] at h1
    simpa using (List.mem_filter.mp h1).2
  have hddig : ∀ c ∈ (filterCells fv col).dedup, ∀ s, c = some s →
      Py.pyIsNumeric s = true := by
    intro c hc s hs
    have h1 := hdsub c hc
    rw [filterCells_eq] at h1
    exact hcol c (List.mem_filter.mp h1).1 s hs
  have hfc : filterCells fv (filterCells fv col).dedup = (filterCells fv col).dedup :=
    filterCells_of_all fv _ hdpred
  have hsame : (filterCells fv (filterCells fv col).dedup).filterMap numericCellInt =
      ((filterCells fv col).dedup).filterMap Py.cellInt? := by
    rw [hfc]
    apply List.filterMap_congr
    intro c hc
    cases c with
    | none => decide
    | some s =>
      have hnum := hddig (some s) hc s rfl
      simp [numericCellInt, Py.pyStrCell, hnum, Py.cellInt?]
  have hfin : (((filterCells fv col).dedup).filterMap Py.cellInt?).toFinset = TF fv col := by
    unfold TF
    ext a
    simp [List.mem_toFinset, List.mem_filterMap, List.mem_dedup]
  by_cases hall : ((filterCells fv col).dedup).all (fun c => (Py.cellInt? c).isSome) = true
  · rw [if_pos hall, Py.pySortedSet_eq_sort]
    unfold canonF
    rw [hfin]
  · rw [if_neg hall, hsame, Py.pySortedSet_eq_sort]
    unfold canonF
    rw [hfin]

theorem TF_nonneg (fv : List String) (col : List (Option String))
    (hcol : DigitCol col) : ∀ a ∈ TF fv col, 0 ≤ a := by
  intro a ha
  rw [mem_TF] at ha
  obtain ⟨c, hc, _, hparse⟩ := ha
  cases c with
  | none => simp [Py.cellInt?] at hparse
  | some s =>
    have hnum := hcol (some s) hc s rfl
    obtain ⟨n, hn⟩ := Py.numeric_nonneg_parse hnum
    simp only [Py.cellInt?] at hparse
    rw [hn] at hparse
    obtain rfl : (n : Int) = a := Option.some.inj hparse
    exact_mod_cast Nat.zero_le n

theorem nodup_filterMap_parse {l : List String} (hnd : l.Nodup)
    (hcanon : ∀ v ∈ l, ∃ n : Int, Py.pyIntOfStr v = some n ∧ Py.pyStrInt n = v) :
    (l.filterMap Py.pyIntOfStr).Nodup := by
  induction l with
  | nil => simp
  | cons v rest ih =>
    obtain ⟨n, hn, hsn⟩ := hcanon v (by simp)
    have hnd2 := List.nodup_cons.mp hnd
    rw [List.filterMap_cons_some hn]
    rw [List.nodup_cons]
    refine ⟨?_, ih hnd2.2 (fun x hx => hcanon x (by simp [hx]))⟩
    intro hmem
    rcases List.mem_filterMap.mp hmem with ⟨w, hw, hwparse⟩
    obtain ⟨m, hm, hsm⟩ := hcanon w (by simp [hw])
    rw [hm] at hwparse
    obtain rfl : m = n := Option.some.inj hwparse
    rw [hsn] at hsm
    rw [← hsm] at hw
    exact hnd2.1 hw

theorem eq_sort_of_sorted_nodup {l : List Int} (hs : List.Sorted (· ≤ ·) l)
    (hnd : l.Nodup) : l = l.toFinset.sort (· ≤ ·) := by
  refine List.eq_of_perm_of_sorted ?_ hs (Finset.sort_sorted _ _)
  exact List.perm_of_nodup_nodup_toFinset_eq hnd (Finset.sort_nodup _ _)
    (Finset.sort_toFinset _ _).symm

theorem reindex_run (fv : List String) (cols : List (List (Option String)))
    (hne : cols ≠ []) (hdig : ∀ col ∈ cols, DigitCol col) :
    reindex_df fv cols = .ok (alignedOf fv (cols.map (TF fv))) := by
  have hTnn : ∀ T ∈ cols.map (TF fv), ∀ a ∈ T, 0 ≤ a := by
    intro T hT
    obtain ⟨col, hcol, rfl⟩ := List.mem_map.mp hT
    exact TF_nonneg fv col (hdig col hcol)
  have hser : cols.map (colToSeries fv) = (cols.map (TF fv)).map canonF := by
    rw [List.map_map]
    apply List.map_congr_left
    intro col hcol
    exact colToSeries_canon fv col (hdig col hcol)
  have hU0mem : ∀ v,
      v ∈ filter_list fv (Py.pySortedSet ((cols.map (TF fv)).map canonF).flatten) ↔
        ((∃ T ∈ cols.map (TF fv), v ∈ canonF T) ∧ matchesFilter fv v = false) := by
    intro v
    rw [filter_list_eq, List.mem_filter, Py.mem_pySortedSet, List.mem_flatten]
    simp only [List.mem_map, Bool.not_eq_true']
    constructor
    · rintro ⟨⟨l, ⟨T, hT, rfl⟩, hvl⟩, hmf⟩
      exact ⟨⟨T, hT, hvl⟩, hmf⟩
    · rintro ⟨⟨T, hT, hvT⟩, hmf⟩
      exact ⟨⟨canonF T, ⟨T, hT, rfl⟩, hvT⟩, hmf⟩
  have hcanonU0 : ∀ v ∈ filter_list fv
      (Py.pySortedSet ((cols.map (TF fv)).map canonF).flatten),
      ∃ n : Int, 0 ≤ n ∧ v = Py.pyStrInt n ∧ Py.pyIntOfStr v = some n := by
    intro v hv
    obtain ⟨⟨T, hT, hvT⟩, _⟩ := (hU0mem v).mp hv
    obtain ⟨n, _, hn0, hvs, hp, _⟩ := canonF_elem_form (hTnn T hT) hvT
    exact ⟨n, hn0, hvs, hp⟩
  have hall : (filter_list fv
      (Py.pySortedSet ((cols.map (TF fv)).map canonF).flatten)).all
      (fun s => (Py.pyIntOfStr s).isSome) = true := by
    rw [List.all_eq_true]
    intro v hv
    obtain ⟨n, _, _, hp⟩ := hcanonU0 v hv
    simp [hp]
  have hU0nodup : (filter_list fv
      (Py.pySortedSet ((cols.map (TF fv)).map canonF).flatten)).Nodup := by
    rw [filter_list_eq]
    exact (Py.pySortedSet_nodup _).filter _
  have hints : intifySortedStrict (filter_list fv
      (Py.pySortedSet ((cols.map (TF fv)).map canonF).flatten)) =
      some (List.insertionSort (· ≤ ·) ((filter_list fv
        (Py.pySortedSet ((cols.map (TF fv)).map canonF).flatten)).filterMap
          Py.pyIntOfStr)) := by
    unfold intifySortedStrict
    rw [if_pos hall]
  have hintsnodup : (List.insertionSort (· ≤ ·) ((filter_list fv
      (Py.pySortedSet ((cols.map (TF fv)).map canonF).flatten)).filterMap
        Py.pyIntOfStr)).Nodup := by
    rw [(List.perm_insertionSort _ _).nodup_iff]
    apply nodup_filterMap_parse hU0nodup
    intro v hv
    obtain ⟨n, _, hvs, hp⟩ := hcanonU0 v hv
    exact ⟨n, hp, hvs.symm⟩
  have hintsfin : (List.insertionSort (· ≤ ·) ((filter_list fv
      (Py.pySortedSet ((cols.map (TF fv)).map canonF).flatten)).filterMap
        Py.pyIntOfStr)).toFinset = UFof fv (cols.map (TF fv)) := by
    ext a
    rw [List.mem_toFinset, (List.perm_insertionSort _ _).mem_iff]
    simp only [List.mem_filterMap]
    constructor
    · rintro ⟨v, hv, hparse⟩
      obtain ⟨n, hn0, hvs, hp⟩ := hcanonU0 v hv
      rw [hp] at hparse
      obtain rfl : n = a := Option.some.inj hparse
      obtain ⟨⟨T, hT, hvT⟩, hmf⟩ := (hU0mem v).mp hv
      rw [UFof, Finset.mem_filter]
      subst hvs
      refine ⟨mem_unionTs.mpr ⟨T, hT, ?_⟩, hmf⟩
      exact (mem_canonF_pyStrInt (hTnn T hT) hn0).mp hvT
    · intro ha
      rw [UFof, Finset.mem_filter] at ha
      obtain ⟨hu, hmf⟩ := ha
      obtain ⟨T, hT, haT⟩ := mem_unionTs.mp hu
      have ha0 : 0 ≤ a := hTnn T hT a haT
      refine ⟨Py.pyStrInt a, ?_, Py.pyIntOfStr_pyStrInt ha0⟩
      apply (hU0mem _).mpr
      exact ⟨⟨T, hT, (mem_canonF_pyStrInt (hTnn T hT) ha0).mpr haT⟩, hmf⟩
  have hu : Py.stringifyInts (List.insertionSort (· ≤ ·) ((filter_list fv
      (Py.pySortedSet ((cols.map (TF fv)).map canonF).flatten)).filterMap
        Py.pyIntOfStr)) = canonF (UFof fv (cols.map (TF fv))) := by
    unfold canonF
    rw [← hintsfin]
    congr 1
    exact eq_sort_of_sorted_nodup (List.sorted_insertionSort _ _) hintsnodup
  unfold reindex_df
  rw [if_neg (fun h => hne (List.isEmpty_iff.mp h))]
  rw [hser, hints]
  simp only [hu]
  unfold alignedOf
  rw [List.map_map]
  rfl

theorem UFof_nonneg (fv : List String) (Ts : List (Finset Int))
    (hTnn : ∀ T ∈ Ts, ∀ a ∈ T, 0 ≤ a) : ∀ a ∈ UFof fv Ts, 0 ≤ a := by
  intro a ha
  rw [UFof, Finset.mem_filter] at ha
  obtain ⟨T, hT, haT⟩ := mem_unionTs.mp ha.1
  exact hTnn T hT a haT

theorem UFof_filter (fv : List String) (Ts : List (Finset Int)) :
    ∀ a ∈ UFof fv Ts, matchesFilter fv (Py.pyStrInt a) = false := by
  intro a ha
  exact (Finset.mem_filter.mp ha).2

theorem UFof_sub (fv : List String) (Ts : List (Finset Int)) :
    ∀ a ∈ UFof fv Ts, ∃ T ∈ Ts, a ∈ T := by
  intro a ha
  exact mem_unionTs.mp (Finset.mem_filter.mp ha).1

theorem TF_aligned (fv : List String) (Ts : List (Finset Int)) (T : Finset Int)
    (hTnn : ∀ X ∈ Ts, ∀ a ∈ X, 0 ≤ a) (hTn : ∀ a ∈ T, 0 ≤ a) :
    TF fv ((canonF (UFof fv Ts)).map
      (fun v => if v ∈ canonF T then some v else none)) = UFof fv Ts ∩ T := by
  have hUnn := UFof_nonneg fv Ts hTnn
  ext a
  rw [mem_TF, Finset.mem_inter]
  constructor
  · rintro ⟨c, hc, hmf, hparse⟩
    obtain ⟨v, hvU, hcv⟩ := List.mem_map.mp hc
    by_cases hvT : v ∈ canonF T
    · rw [if_pos hvT] at hcv
      subst hcv
      obtain ⟨n, hnU, hn0, hvs, hp, _⟩ := canonF_elem_form hUnn hvU
      simp only [Py.cellInt?] at hparse
      rw [hp] at hparse
      obtain rfl : n = a := Option.some.inj hparse
      subst hvs
      exact ⟨hnU, (mem_canonF_pyStrInt hTn hn0).mp hvT⟩
    · rw [if_neg hvT] at hcv
      subst hcv
      simp [Py.cellInt?] at hparse
  · rintro ⟨haU, haT⟩
    have ha0 : 0 ≤ a := hUnn a haU
    have hvU : Py.pyStrInt a ∈ canonF (UFof fv Ts) :=
      (mem_canonF_pyStrInt hUnn ha0).mpr haU
    have hvT : Py.pyStrInt a ∈ canonF T := (mem_canonF_pyStrInt hTn ha0).mpr haT
    refine ⟨some (Py.pyStrInt a), ?_, ?_, ?_⟩
    · exact List.mem_map.mpr ⟨Py.pyStrInt a, hvU, by rw [if_pos hvT]⟩
    · exact UFof_filter fv Ts a haU
    · simp only [Py.cellInt?]
      exact Py.pyIntOfStr_pyStrInt ha0

theorem alignedOf_digit (fv : List String) (Ts : List (Finset Int))
    (hTnn : ∀ T ∈ Ts, ∀ a ∈ T, 0 ≤ a) :
    ∀ col ∈ alignedOf fv Ts, DigitCol col := by
  intro col hcol c hc s hs
  obtain ⟨T, _, rfl⟩ := List.mem_map.mp hcol
  obtain ⟨v, hvU, hcv⟩ := List.mem_map.mp hc
  by_cases hvT : v ∈ canonF T
  · rw [if_pos hvT] at hcv
    rw [← hcv] at hs
    obtain rfl : v = s := Option.some.inj hs
    obtain ⟨n, _, hn0, rfl, _, hnum⟩ :=
      canonF_elem_form (UFof_nonneg fv Ts hTnn) hvU
    exact hnum
  · rw [if_neg hvT] at hcv
    rw [← hcv] at hs
    exact absurd hs (by simp)

theorem UFof_inter_eq (fv : List String) (Ts : List (Finset Int)) :
    UFof fv (Ts.map (fun T => UFof fv Ts ∩ T)) = UFof fv Ts := by
  ext a
  constructor
  · intro ha
    rw [UFof, Finset.mem_filter] at ha
    obtain ⟨T2, hT2, haT2⟩ := mem_unionTs.mp ha.1
    obtain ⟨T, _, rfl⟩ := List.mem_map.mp hT2
    exact (Finset.mem_inter.mp haT2).1
  · intro ha
    rw [UFof, Finset.mem_filter]
    obtain ⟨T, hT, haT⟩ := UFof_sub fv Ts a ha
    refine ⟨mem_unionTs.mpr ⟨UFof fv Ts ∩ T, List.mem_map.mpr ⟨T, hT, rfl⟩, ?_⟩,
      UFof_filter fv Ts a ha⟩
    exact Finset.mem_inter.mpr ⟨ha, haT⟩

/-- C7: running the hard-refresh path (reindex_df, the body of
hard_refresh) twice in a row on a nonempty table whose present cells are
decimal tokens, with no edits in between, produces the table of the first
run unchanged: a first successful run exists and the second run returns
its output as a fixed point. -/
theorem hard_refresh_idempotent (fv : List String) (cols : List (List (Option String)))
    (hne : cols ≠ []) (hdig : ∀ col ∈ cols, DigitCol col) :
    ∃ d, reindex_df fv cols = .ok d ∧ reindex_df fv d = .ok d := by
  refine ⟨alignedOf fv (cols.map (TF fv)), reindex_run fv cols hne hdig, ?_⟩
  have hTnn : ∀ T ∈ cols.map (TF fv), ∀ a ∈ T, 0 ≤ a := by
    intro T hT
    obtain ⟨col, hcol, rfl⟩ := List.mem_map.mp hT
    exact TF_nonneg fv col (hdig col hcol)
  have hne₂ : alignedOf fv (cols.map (TF fv)) ≠ [] := by
    unfold alignedOf
    simp [hne]
  rw [reindex_run fv (alignedOf fv (cols.map (TF fv))) hne₂
    (alignedOf_digit fv (cols.map (TF fv)) hTnn)]
  congr 1
  have hTs2 : (alignedOf fv (cols.map (TF fv))).map (TF fv) =
      (cols.map (TF fv)).map (fun T => UFof fv (cols.map (TF fv)) ∩ T) := by
    unfold alignedOf
    rw [List.map_map]
    apply List.map_congr_left
    intro T hT
    exact TF_aligned fv (cols.map (TF fv)) T hTnn (hTnn T hT)
  rw [hTs2]
  unfold alignedOf
  rw [UFof_inter_eq fv (cols.map (TF fv)), List.map_map]
  apply List.map_congr_left
  intro T hT
  show (canonF (UFof fv (cols.map (TF fv)))).map
      (fun v => if v ∈ canonF (UFof fv (cols.map (TF fv)) ∩ T) then some v else none) =
    (canonF (UFof fv (cols.map (TF fv)))).map
      (fun v => if v ∈ canonF T then some v else none)
  apply List.map_congr_left
  intro v hv
  have hUnn := UFof_nonneg fv (cols.map (TF fv)) hTnn
  obtain ⟨n, hnU, hn0, rfl, _, _⟩ := canonF_elem_form hUnn hv
  have hiff : Py.pyStrInt n ∈ canonF (UFof fv (cols.map (TF fv)) ∩ T) ↔
      Py.pyStrInt n ∈ canonF T := by
    rw [mem_canonF_pyStrInt (fun a ha => hUnn a (Finset.mem_inter.mp ha).1) hn0,
      mem_canonF_pyStrInt (hTnn T hT) hn0, Finset.mem_inter]
    exact ⟨fun h => h.2, fun h => ⟨hnU, h⟩⟩
  by_cases hmem : Py.pyStrInt n ∈ canonF T
  · rw [if_pos (hiff.mpr hmem), if_pos hmem]
  · rw [if_neg (fun hc => hmem (hiff.mp hc)), if_neg hmem]

/-- Witness for hard_refresh_idempotent on a concrete two-column table
with one value each. -/
theorem hard_refresh_idempotent_witness :
    ∃ d, reindex_df ["-----"] [[some "10", none], [none, some "20"]] = .ok d ∧
      reindex_df ["-----"] d = .ok d :=
  hard_refresh_idempotent ["-----"] [[some "10", none], [none, some "20"]]
    (by decide)
    (by
      intro col hcol c hc s hs
      fin_cases hcol <;> fin_cases hc <;> cases hs <;> decide)

end Tables
